import Mathlib

/-!
Verification of `gcp_project_cleanup.py`, a report generator that joins three
fetched data sources (project inventory, IAM owner bindings, inactivity
recommendations) by key, sorts the joined records, and renders an aligned text
table.  The network fetches are modelled by passing the fetched payloads in as
explicit values; all string processing, aggregation, joining, sorting and
rendering logic is translated faithfully.  Python strings are modelled as
`String` with operations defined over the character list `String.data`, which
matches Python's code-point semantics.
-/

namespace GcpCleanup

/-! ### Python string primitives -/

/-- Lexicographic `<=` on character lists by code point: Python string
comparison. -/
def lexLeb : List Char → List Char → Bool
  | [], _ => true
  | _ :: _, [] => false
  | c :: cs, d :: ds => if c < d then true else if c = d then lexLeb cs ds else false

/-- Python `s <= t` on strings. -/
def pyStrLe (s t : String) : Bool := lexLeb s.data t.data

/-- Does the (nonempty) pattern `s0 :: sep` occur as a contiguous run in the
list?  Python's `in` operator on strings. -/
def subOf (sub : List Char) : List Char → Bool
  | [] => sub.isEmpty
  | c :: rest => sub.isPrefixOf (c :: rest) || subOf sub rest

/-- Python `s in t` for strings. -/
def pyContains (t sub : String) : Bool := subOf sub.data t.data

/-- Worker for Python `str.split(sep)` with nonempty separator `s0 :: sep`:
scan left to right, cutting at each non-overlapping occurrence of the
separator.  `acc` holds the chars of the current field, reversed.  The `fuel`
argument only makes the recursion structural; a fuel of at least the input
length (which `pySplit` supplies) is never exhausted, since each step consumes
at least one character. -/
def pySplitAux (s0 : Char) (sep : List Char) : Nat → List Char → List Char → List (List Char)
  | _, [], acc => [acc.reverse]
  | 0, l, acc => [acc.reverse ++ l]
  | fuel + 1, c :: rest, acc =>
    if (s0 :: sep).isPrefixOf (c :: rest) then
      acc.reverse :: pySplitAux s0 sep fuel (rest.drop sep.length) []
    else
      pySplitAux s0 sep fuel rest (c :: acc)

/-- Python `s.split(sep)` for a nonempty separator (the only way the program
calls it); an empty separator raises in Python and never occurs here. -/
def pySplit (s sep : String) : List String :=
  match sep.data with
  | [] => [s]
  | c :: cs => (pySplitAux c cs s.data.length s.data []).map (fun l => String.mk l)

/-- Python `s.ljust(w)`: pad on the right with spaces up to width `w`
(no-op when `s` is already at least that wide). -/
def pyLjust (s : String) (w : Nat) : String :=
  s ++ String.mk (List.replicate (w - s.length) ' ')

/-- Python `sep.join(l)`. -/
def pyJoin (sep : String) : List String → String
  | [] => ""
  | [x] => x
  | x :: y :: rest => x ++ sep ++ pyJoin sep (y :: rest)

/-- Python `str(b)` for a boolean. -/
def pyStrBool (b : Bool) : String := if b then "True" else "False"

/-- Python `max` over a list of naturals: fails (raises `ValueError`) on an
empty sequence, hence the `Option`. -/
def pyMax (l : List Nat) : Option Nat :=
  match l with
  | [] => none
  | x :: xs => some (xs.foldl max x)

/-! ### Data model: fetched payload shapes (`search_all_iam_policies` results,
recommender operations) and project records -/

/-- A project record as produced by `fetch_projects` (before `main` augments it
with `owners` and `inactive`). -/
structure ProjectInfo where
  project_id : String
  project_number : String
  display_name : String
  create_date : String
deriving DecidableEq

/-- A fully populated record: the dict after `main` adds `owners` and
`inactive`. -/
structure Project where
  project_id : String
  project_number : String
  display_name : String
  create_date : String
  owners : List String
  inactive : Bool
deriving DecidableEq

/-- One IAM binding: a role plus its member principals. -/
structure Binding where
  role : String
  members : List String
deriving DecidableEq

/-- The `policy` field of an IAM search result. -/
structure PolicyDoc where
  bindings : List Binding
deriving DecidableEq

/-- One result from `search_all_iam_policies`. -/
structure IamPolicyResult where
  resource : String
  policy : PolicyDoc
deriving DecidableEq

/-- One operation inside a recommendation's operation group. -/
structure Operation where
  resource : String
deriving DecidableEq

/-- An operation group of a recommendation. -/
structure OperationGroup where
  operations : List Operation
deriving DecidableEq

/-- The `content` field of a recommendation. -/
structure RecContent where
  operation_groups : List OperationGroup
deriving DecidableEq

/-- One recommendation from `list_recommendations`. -/
structure Recommendation where
  content : RecContent
deriving DecidableEq

/-! ### Ownership fetcher (`fetch_project_owners`) -/

/-- The key-extraction expression `resource.split("/projects/")[-1].split("/")[0]`,
expression used on line 49 (with `policy.resource`) and line 77 (with
`op.resource`). -/
def resourceProjectKey (resource : String) : String :=
  ((pySplit ((pySplit resource "/projects/").getLastD "") "/").headD "")

/-- Python `m.removeprefix("user:")`. -/
def pyStripUserColon (m : String) : String :=
  if ("user:".data).isPrefixOf m.data then String.mk (m.data.drop ("user:".data).length)
  else m

/-- The expression `m.removeprefix("user:").split("@")[0]`. -/
def memberUsername (m : String) : String :=
  (pySplit (pyStripUserColon m) "@").headD ""

/-- The list comprehension on lines 53-57: usernames of the `user:` members of
one binding. -/
def bindingUsernames (b : Binding) : List String :=
  (b.members.filter (fun m => ("user:".data).isPrefixOf m.data)).map memberUsername

/-- The mutable `owners` dict, as an insertion-ordered association list. -/
abbrev OwnersDict := List (String × List String)

/-- The update `owners.setdefault(k, []).extend(vs)`. -/
def dictExtend (k : String) (vs : List String) : OwnersDict → OwnersDict
  | [] => [(k, vs)]
  | (k', vs') :: rest =>
    if k' = k then (k', vs' ++ vs) :: rest else (k', vs') :: dictExtend k vs rest

/-- The lookup `owners.get(k, [])`. -/
def dictGetD : OwnersDict → String → List String
  | [], _ => []
  | (k', vs) :: rest, k => if k' = k then vs else dictGetD rest k

/-- The body of the `for policy in response` loop (lines 48-58): fold over the
policy's bindings, extending the dict for each owner-role binding. -/
def policyStep (acc : OwnersDict) (p : IamPolicyResult) : OwnersDict :=
  p.policy.bindings.foldl
    (fun a b =>
      if b.role = "roles/owner" then
        dictExtend (resourceProjectKey p.resource) (bindingUsernames b) a
      else a)
    acc

/-- Function `fetch_project_owners`, as a function of the policies returned by the IAM
search: accumulate usernames per extracted project key, then replace each value
by `list(set(...))` (deduplication; modelled by `List.dedup`). -/
def fetch_project_owners (policies : List IamPolicyResult) : OwnersDict :=
  (policies.foldl policyStep []).map (fun kv => (kv.1, kv.2.dedup))

/-! ### Inactivity fetcher (`fetch_inactive_project_numbers`) -/

/-- Function `fetch_inactive_project_numbers`, as a function of the recommendations
returned by the recommender: for every operation of every operation group of
every recommendation whose resource contains `"/projects/"`, add the extracted
project number to a set. -/
def fetch_inactive_project_numbers (recs : List Recommendation) : Finset String :=
  (recs.flatMap fun rec =>
    rec.content.operation_groups.flatMap fun g =>
      (g.operations.filter fun op => pyContains op.resource "/projects/").map fun op =>
        resourceProjectKey op.resource).toFinset

/-! ### Join and sort (`main`, lines 127-131) -/

/-- The augmentation loop of `main` (lines 127-129) applied to one record:
`p["owners"] = owners.get(pid, [])`, `p["inactive"] = number in inactive`. -/
def augmentProject (owners : OwnersDict) (inactive : Finset String)
    (p : ProjectInfo) : Project :=
  { project_id := p.project_id
    project_number := p.project_number
    display_name := p.display_name
    create_date := p.create_date
    owners := dictGetD owners p.project_id
    inactive := decide (p.project_number ∈ inactive) }

/-- Comparison `False < True` on Python booleans. -/
def boolLtb (b1 b2 : Bool) : Bool := !b1 && b2

/-- The sort key of line 131: `(not p["inactive"], p["create_date"])`. -/
def sortKey (p : Project) : Bool × String := (!p.inactive, p.create_date)

/-- Python's `<=` on `(bool, str)` tuples: lexicographic. -/
def tupleLeb : Bool × String → Bool × String → Bool
  | (b1, s1), (b2, s2) => boolLtb b1 b2 || (b1 == b2 && pyStrLe s1 s2)

/-- The comparison `projects.sort` uses on line 131 (ascending by key). -/
def keyLe (a b : Project) : Prop := tupleLeb (sortKey a) (sortKey b) = true

instance : DecidableRel keyLe :=
  fun a b => inferInstanceAs (Decidable (tupleLeb (sortKey a) (sortKey b) = true))

/-- The call `projects.sort(key=lambda p: (not p["inactive"], p["create_date"]))`:
Python's sort is stable, so it is modelled by the (stable) insertion sort under
the key comparison. -/
def sortProjects (l : List Project) : List Project := List.insertionSort keyLe l

/-- The records `main` passes to `print_report`: augmented then sorted. -/
def joinRecords (ps : List ProjectInfo) (policies : List IamPolicyResult)
    (recs : List Recommendation) : List Project :=
  ps.map (augmentProject (fetch_project_owners policies)
    (fetch_inactive_project_numbers recs))

/-- Join followed by the sort of line 131. -/
def mainRecords (ps : List ProjectInfo) (policies : List IamPolicyResult)
    (recs : List Recommendation) : List Project :=
  sortProjects (joinRecords ps policies recs)

/-! ### Table renderer (`print_report`) -/

/-- Python `sorted(l)` on a list of strings (Python's sort: stable, here under the
code-point lexicographic order). -/
def strLe (a b : String) : Prop := pyStrLe a b = true

instance : DecidableRel strLe :=
  fun a b => inferInstanceAs (Decidable (pyStrLe a b = true))

/-- Python `sorted` on strings. -/
def pySortedStrings (l : List String) : List String := List.insertionSort strLe l

/-- The owners cell `", ".join(sorted(p["owners"])) if p["owners"] else "-"` (line 90). -/
def ownersCell (owners : List String) : String :=
  if owners = [] then "-" else pyJoin ", " (pySortedStrings owners)

/-- The display-row dict built on lines 91-98, as a lookup by column name.
A column name never used as a key (and never looked up) maps to `""`. -/
def displayCell (p : Project) (col : String) : String :=
  if col = "display_name" then p.display_name
  else if col = "owners" then ownersCell p.owners
  else if col = "create_date" then p.create_date
  else if col = "project_id" then p.project_id
  else if col = "inactive" then pyStrBool p.inactive
  else ""

/-- The headers list of lines 84-86: the `inactive` column is appended only
when `--show-inactive` was given. -/
def headersFor (show_inactive : Bool) : List String :=
  ["display_name", "owners", "create_date", "project_id"] ++
    (if show_inactive then ["inactive"] else [])

/-- Width `col_widths[col]` (line 103): `max(len(col), max(len(row[col]) for row in
display_data))`.  The inner `max` raises on an empty record list; that failure
is surfaced by `print_report` itself, so here the empty case is defaulted. -/
def colWidth (projects : List Project) (col : String) : Nat :=
  max col.length ((pyMax (projects.map fun p => (displayCell p col).length)).getD 0)

/-- Line `header_row` (line 105): every header left-justified to its column width,
joined by two spaces. -/
def headerRow (projects : List Project) (show_inactive : Bool) : String :=
  pyJoin "  " ((headersFor show_inactive).map fun h => pyLjust h (colWidth projects h))

/-- One printed data row (line 110): every cell of the record left-justified to
its column width, joined by two spaces. -/
def rowLine (projects : List Project) (show_inactive : Bool) (p : Project) : String :=
  pyJoin "  " ((headersFor show_inactive).map fun h => pyLjust (displayCell p h) (colWidth projects h))

/-- Function `print_report` (lines 83-110), returning the printed lines.  On an empty
record list the width computation `max(len(row[col]) for row in display_data)`
raises `ValueError`, modelled as `none`. -/
def print_report (projects : List Project) (show_inactive : Bool) :
    Option (List String) :=
  if projects.isEmpty then none
  else
    some (headerRow projects show_inactive
      :: String.mk (List.replicate (headerRow projects show_inactive).length '-')
      :: projects.map (rowLine projects show_inactive))

/-! ### Entry point (`main`) -/

/-- Function `main` (lines 113-133), with each fetch stage's outcome passed in as an
`Except`: an `error` is an exception raised by that stage, which propagates
uncaught (the `ValueError` a later empty-table render raises is folded into the
same error type).  The value is the list of printed lines. -/
def run_report (projRes : Except String (List ProjectInfo))
    (polRes : Except String (List IamPolicyResult))
    (recRes : Except String (List Recommendation))
    (show_inactive : Bool) : Except String (List String) :=
  match projRes with
  | .error e => .error e
  | .ok ps =>
    match polRes with
    | .error e => .error e
    | .ok policies =>
      match recRes with
      | .error e => .error e
      | .ok recs =>
        match print_report (mainRecords ps policies recs) show_inactive with
        | none => .error "ValueError: max() arg is an empty sequence"
        | some lines => .ok lines

/-! ### Claim-side definitions (statements of the spec's properties) -/

/-- The ordering the spec claims for rendered records: active strictly before
inactive, ties by ascending create_date. -/
def specClaimedOrd (a b : Project) : Prop :=
  (a.inactive = false ∧ b.inactive = true) ∨
    (a.inactive = b.inactive ∧ pyStrLe a.create_date b.create_date = true)

instance : DecidableRel specClaimedOrd := fun a b =>
  inferInstanceAs (Decidable ((a.inactive = false ∧ b.inactive = true) ∨
    (a.inactive = b.inactive ∧ pyStrLe a.create_date b.create_date = true)))

/-- The ordering the code actually produces: inactive strictly before active,
ties by ascending create_date. -/
def codeActualOrd (a b : Project) : Prop :=
  (a.inactive = true ∧ b.inactive = false) ∨
    (a.inactive = b.inactive ∧ pyStrLe a.create_date b.create_date = true)

instance : DecidableRel codeActualOrd := fun a b =>
  inferInstanceAs (Decidable ((a.inactive = true ∧ b.inactive = false) ∨
    (a.inactive = b.inactive ∧ pyStrLe a.create_date b.create_date = true)))

/-- Spec-side: all usernames contributed for a given project id — the
concatenation, over every policy whose resource path resolves to that id, of
the usernames of every owner-role binding of that policy. -/
def specOwnerUsernames (policies : List IamPolicyResult) (pid : String) :
    List String :=
  policies.flatMap fun p =>
    if resourceProjectKey p.resource = pid then
      (p.policy.bindings.filter fun b => b.role = "roles/owner").flatMap bindingUsernames
    else []

/-! ### Order lemmas for the lexicographic comparisons -/

theorem lexLeb_total : ∀ l₁ l₂ : List Char, lexLeb l₁ l₂ = true ∨ lexLeb l₂ l₁ = true := by
  intro l₁
  induction l₁ with
  | nil => intro l₂; left; rfl
  | cons c cs ih =>
    intro l₂
    cases l₂ with
    | nil => right; rfl
    | cons d ds =>
      rcases lt_trichotomy c d with h | h | h
      · left; simp [lexLeb, h]
      · subst h
        rcases ih ds with h' | h'
        · left; simp [lexLeb, lt_irrefl, h']
        · right; simp [lexLeb, lt_irrefl, h']
      · right; simp [lexLeb, h]

theorem lexLeb_trans : ∀ l₁ l₂ l₃ : List Char,
    lexLeb l₁ l₂ = true → lexLeb l₂ l₃ = true → lexLeb l₁ l₃ = true := by
  intro l₁
  induction l₁ with
  | nil => intro l₂ l₃ _ _; rfl
  | cons c cs ih =>
    intro l₂ l₃ h₁ h₂
    cases l₂ with
    | nil => simp [lexLeb] at h₁
    | cons d ds =>
      cases l₃ with
      | nil => simp [lexLeb] at h₂
      | cons e es =>
        rcases lt_trichotomy c d with hcd | hcd | hcd
        · rcases lt_trichotomy d e with hde | hde | hde
          · simp [lexLeb, lt_trans hcd hde]
          · subst hde; simp [lexLeb, hcd]
          · have h3 : ¬ d < e := lt_asymm hde
            have h4 : d ≠ e := ne_of_gt hde
            simp [lexLeb, h3, h4] at h₂
        · subst hcd
          simp only [lexLeb, lt_irrefl, if_false, if_pos rfl] at h₁
          rcases lt_trichotomy c e with hce | hce | hce
          · simp [lexLeb, hce]
          · subst hce
            simp only [lexLeb, lt_irrefl, if_false, if_pos rfl] at h₂ ⊢
            exact ih ds es h₁ h₂
          · have h3 : ¬ c < e := lt_asymm hce
            have h4 : c ≠ e := ne_of_gt hce
            simp [lexLeb, h3, h4] at h₂
        · have h3 : ¬ c < d := lt_asymm hcd
          have h4 : c ≠ d := ne_of_gt hcd
          simp [lexLeb, h3, h4] at h₁

theorem lexLeb_antisymm : ∀ l₁ l₂ : List Char,
    lexLeb l₁ l₂ = true → lexLeb l₂ l₁ = true → l₁ = l₂ := by
  intro l₁
  induction l₁ with
  | nil =>
    intro l₂ _ h₂
    cases l₂ with
    | nil => rfl
    | cons d ds => simp [lexLeb] at h₂
  | cons c cs ih =>
    intro l₂ h₁ h₂
    cases l₂ with
    | nil => simp [lexLeb] at h₁
    | cons d ds =>
      rcases lt_trichotomy c d with hcd | hcd | hcd
      · have h3 : ¬ d < c := lt_asymm hcd
        have h4 : d ≠ c := ne_of_gt hcd
        simp [lexLeb, h3, h4] at h₂
      · subst hcd
        simp only [lexLeb, lt_irrefl, if_false, if_pos rfl] at h₁ h₂
        rw [ih ds h₁ h₂]
      · have h3 : ¬ c < d := lt_asymm hcd
        have h4 : c ≠ d := ne_of_gt hcd
        simp [lexLeb, h3, h4] at h₁

instance : IsTotal String strLe := ⟨fun a b => lexLeb_total a.data b.data⟩

instance : IsTrans String strLe :=
  ⟨fun a b c h₁ h₂ => lexLeb_trans a.data b.data c.data h₁ h₂⟩

instance : IsAntisymm String strLe :=
  ⟨fun a b h₁ h₂ => String.ext (lexLeb_antisymm a.data b.data h₁ h₂)⟩

theorem tupleLeb_total : ∀ x y : Bool × String, tupleLeb x y = true ∨ tupleLeb y x = true := by
  rintro ⟨b1, s1⟩ ⟨b2, s2⟩
  cases b1 <;> cases b2 <;>
    simp [tupleLeb, boolLtb, pyStrLe] <;>
    exact lexLeb_total s1.data s2.data

theorem tupleLeb_trans : ∀ x y z : Bool × String,
    tupleLeb x y = true → tupleLeb y z = true → tupleLeb x z = true := by
  rintro ⟨b1, s1⟩ ⟨b2, s2⟩ ⟨b3, s3⟩ h₁ h₂
  cases b1 <;> cases b2 <;> cases b3 <;>
    simp_all [tupleLeb, boolLtb, pyStrLe] <;>
    exact lexLeb_trans s1.data s2.data s3.data h₁ h₂

instance : IsTotal Project keyLe := ⟨fun a b => tupleLeb_total (sortKey a) (sortKey b)⟩

instance : IsTrans Project keyLe :=
  ⟨fun a b c h₁ h₂ => tupleLeb_trans (sortKey a) (sortKey b) (sortKey c) h₁ h₂⟩

/-- The comparison of line 131 implies the inactive-first ordering. -/
theorem keyLe_imp_codeActualOrd {a b : Project} (h : keyLe a b) : codeActualOrd a b := by
  unfold keyLe tupleLeb sortKey boolLtb at h
  cases ha : a.inactive <;> cases hb : b.inactive <;>
    simp_all [codeActualOrd, pyStrLe]

/-! ### The three-project scenario of the spec (P1 active 2020-01-01, P2
inactive 2021-06-15 with no owners, P3 active 2019-03-03) -/

def P1demo : Project :=
  { project_id := "p1", project_number := "1", display_name := "P1",
    create_date := "2020-01-01", owners := ["alice"], inactive := false }

def P2demo : Project :=
  { project_id := "p2", project_number := "2", display_name := "P2",
    create_date := "2021-06-15", owners := [], inactive := true }

def P3demo : Project :=
  { project_id := "p3", project_number := "3", display_name := "P3",
    create_date := "2019-03-03", owners := ["bob", "carol"], inactive := false }

/-! ### Claim C1 -/

/-- Claim C1, as stated, is false: on the spec's own three-project scenario the
sort of line 131 puts the inactive project P2 first, because the key
`not p["inactive"]` makes inactive records (key `False`) sort before active
ones (key `True`); the rendered order is P2, P3, P1, not P3, P1, P2, and the
claimed active-before-inactive pairwise ordering fails on the output. -/
theorem c1_sort_order_counterexample :
    sortProjects [P1demo, P2demo, P3demo] = [P2demo, P3demo, P1demo] ∧
    ¬ List.Pairwise specClaimedOrd (sortProjects [P1demo, P2demo, P3demo]) ∧
    sortProjects [P1demo, P2demo, P3demo] ≠ [P3demo, P1demo, P2demo] := by
  refine ⟨by decide, by decide, by decide⟩

/-- Claim C1 (amended): the final sort orders records by the composite key with
inactive projects before active ones (inactive=true sorts before
inactive=false) and, within the same activity bucket, by create_date ascending:
any two rendered records A, B in that order satisfy (A.inactive ∧ ¬B.inactive)
or (equal inactive and A.create_date <= B.create_date); on the three-project
scenario the rendered order is P2, P3, P1, with P2's owners cell rendered as
`-`. -/
theorem c1_sort_order :
    (∀ l : List Project, List.Pairwise codeActualOrd (sortProjects l)) ∧
    sortProjects [P1demo, P2demo, P3demo] = [P2demo, P3demo, P1demo] ∧
    displayCell P2demo "owners" = "-" := by
  refine ⟨?_, by decide, by decide⟩
  intro l
  exact List.Pairwise.imp keyLe_imp_codeActualOrd (List.sorted_insertionSort keyLe l)

/-! ### Claim C2 -/

/-- Claim C2, as stated, is false: on an empty record list `print_report` does
not print a header/separator pair; the width computation
`max(len(row[col]) for row in display_data)` raises `ValueError` on the empty
sequence, so the renderer fails (modelled as `none`) under either flag. -/
theorem c2_empty_render_counterexample :
    print_report [] true = none ∧ print_report [] false = none :=
  ⟨rfl, rfl⟩

/-- Claim C2 (amended): when the list of records passed to the renderer is
empty, the renderer does not succeed: the per-column width computation takes
`max` of an empty sequence, which raises `ValueError`, and nothing is
printed. -/
theorem c2_empty_render :
    ∀ b : Bool, print_report [] b = none := by
  intro b; rfl

/-! ### Claim C8 -/

/-- Claim C8: if any of the three fetch stages raises, the error propagates
uncaught through `main` — the run produces that error, unchanged, and no table
output (not even a header) is produced; no stage's error is caught, retried, or
replaced by a partial report. -/
theorem c8_fail_fast :
    ∀ (e : String) (polRes : Except String (List IamPolicyResult))
      (recRes : Except String (List Recommendation))
      (ps : List ProjectInfo) (policies : List IamPolicyResult) (b : Bool),
      run_report (.error e) polRes recRes b = .error e ∧
      run_report (.ok ps) (.error e) recRes b = .error e ∧
      run_report (.ok ps) (.ok policies) (.error e) b = .error e := by
  intro e polRes recRes ps policies b
  exact ⟨rfl, rfl, rfl⟩

/-! ### Characterizing the owners dict -/

theorem dictGetD_dictExtend (d : OwnersDict) (pid k : String) (vs : List String) :
    dictGetD (dictExtend pid vs d) k = dictGetD d k ++ if pid = k then vs else [] := by
  induction d with
  | nil =>
    by_cases h : pid = k
    · subst h; simp [dictExtend, dictGetD]
    · simp [dictExtend, dictGetD, h]
  | cons kv rest ih =>
    obtain ⟨k', vs'⟩ := kv
    by_cases h1 : k' = pid
    · subst h1
      by_cases h2 : k' = k
      · subst h2; simp [dictExtend, dictGetD]
      · simp [dictExtend, dictGetD, h2]
    · by_cases h2 : k' = k
      · subst h2
        have h3 : pid ≠ k' := fun h => h1 h.symm
        simp [dictExtend, dictGetD, h1, h3]
      · simp [dictExtend, dictGetD, h1, h2, ih]

theorem dictGetD_bindingsFold (bs : List Binding) (acc : OwnersDict) (pid k : String) :
    dictGetD
        (bs.foldl
          (fun a b => if b.role = "roles/owner" then dictExtend pid (bindingUsernames b) a else a)
          acc) k
      = dictGetD acc k ++
          if pid = k then (bs.filter fun b => b.role = "roles/owner").flatMap bindingUsernames
          else [] := by
  induction bs generalizing acc with
  | nil => simp
  | cons b bs ih =>
    simp only [List.foldl_cons]
    by_cases hb : b.role = "roles/owner"
    · rw [if_pos hb, ih, dictGetD_dictExtend]
      rw [List.filter_cons_of_pos (by simp [hb]), List.flatMap_cons]
      by_cases hk : pid = k
      · simp [hk, List.append_assoc]
      · simp [hk]
    · rw [if_neg hb, ih, List.filter_cons_of_neg (by simp [hb])]

theorem dictGetD_policiesFold (policies : List IamPolicyResult) (acc : OwnersDict) (k : String) :
    dictGetD (policies.foldl policyStep acc) k
      = dictGetD acc k ++ specOwnerUsernames policies k := by
  induction policies generalizing acc with
  | nil => simp [specOwnerUsernames, dictGetD]
  | cons p ps ih =>
    rw [List.foldl_cons, ih]
    unfold policyStep
    rw [dictGetD_bindingsFold]
    simp [specOwnerUsernames, List.flatMap_cons, List.append_assoc]

theorem dictGetD_mapDedup (d : OwnersDict) (k : String) :
    dictGetD (d.map fun kv => (kv.1, kv.2.dedup)) k = (dictGetD d k).dedup := by
  induction d with
  | nil => simp [dictGetD]
  | cons kv rest ih =>
    obtain ⟨k', vs⟩ := kv
    by_cases h : k' = k
    · simp [dictGetD, h]
    · simp [dictGetD, h, ih]

/-- The ownership mapping at any key is exactly the deduplication of all the
usernames accumulated for that key across all policies and bindings. -/
theorem fetch_project_owners_spec (policies : List IamPolicyResult) (k : String) :
    dictGetD (fetch_project_owners policies) k = (specOwnerUsernames policies k).dedup := by
  unfold fetch_project_owners
  rw [dictGetD_mapDedup, dictGetD_policiesFold]
  rfl

/-- Membership in the inactivity fetcher's result set. -/
theorem mem_fetch_inactive (recs : List Recommendation) (x : String) :
    x ∈ fetch_inactive_project_numbers recs ↔
      ∃ rec ∈ recs, ∃ g ∈ rec.content.operation_groups, ∃ op ∈ g.operations,
        pyContains op.resource "/projects/" = true ∧ resourceProjectKey op.resource = x := by
  unfold fetch_inactive_project_numbers
  simp only [List.mem_toFinset, List.mem_flatMap, List.mem_map, List.mem_filter]
  constructor
  · rintro ⟨rec, hrec, g, hg, op, ⟨hop, hsub⟩, hkey⟩
    exact ⟨rec, hrec, g, hg, op, hop, hsub, hkey⟩
  · rintro ⟨rec, hrec, g, hg, op, hop, hsub, hkey⟩
    exact ⟨rec, hrec, g, hg, op, ⟨hop, hsub⟩, hkey⟩

/-! ### Demo fetch payloads used to witness the hypothesised claims -/

def psDemo : List ProjectInfo :=
  [{ project_id := "demo", project_number := "1", display_name := "Demo",
     create_date := "2020-01-01" }]

def polDemo : List IamPolicyResult :=
  [{ resource := "//cloudresourcemanager.googleapis.com/projects/demo",
     policy := ⟨[⟨"roles/owner", ["user:jane.doe@example.com",
                                  "serviceAccount:x@proj.iam.gserviceaccount.com"]⟩]⟩ }]

/-- The record `main` builds from `psDemo`, `polDemo` and no recommendations. -/
def qDemo : Project :=
  { project_id := "demo", project_number := "1", display_name := "Demo",
    create_date := "2020-01-01", owners := ["jane.doe"], inactive := false }

def psNum : List ProjectInfo :=
  [{ project_id := "p42", project_number := "42", display_name := "FortyTwo",
     create_date := "2020-05-05" }]

def recsDemo : List Recommendation :=
  [⟨⟨[⟨[⟨"folders/1/projects/42/insights"⟩]⟩]⟩⟩]

/-- The record `main` builds from `psNum`, no policies and `recsDemo`. -/
def qNum : Project :=
  { project_id := "p42", project_number := "42", display_name := "FortyTwo",
    create_date := "2020-05-05", owners := [], inactive := true }

/-! ### Claim C3 -/

/-- Claim C3: after the join, every record's owners field equals (as a
duplicate-free collection) the union of the usernames derived from every
owner-role binding whose resource path resolves to the record's own project_id,
across all policies and bindings; a record whose project_id has no matching
binding gets the empty collection, which the renderer displays as `-`. -/
theorem c3_owners_join :
    ∀ (ps : List ProjectInfo) (policies : List IamPolicyResult)
      (recs : List Recommendation) (q : Project), q ∈ mainRecords ps policies recs →
      (∀ u : String, u ∈ q.owners ↔ u ∈ specOwnerUsernames policies q.project_id) ∧
        q.owners.Nodup ∧
        (specOwnerUsernames policies q.project_id = [] → displayCell q "owners" = "-") := by
  intro ps policies recs q hq
  have hq' : q ∈ joinRecords ps policies recs :=
    ((List.perm_insertionSort keyLe _).mem_iff).mp hq
  obtain ⟨p0, _, rfl⟩ := List.mem_map.mp hq'
  refine ⟨?_, ?_, ?_⟩
  · intro u
    show u ∈ dictGetD (fetch_project_owners policies) p0.project_id ↔ _
    rw [fetch_project_owners_spec]
    exact List.mem_dedup
  · show (dictGetD (fetch_project_owners policies) p0.project_id).Nodup
    rw [fetch_project_owners_spec]
    exact List.nodup_dedup _
  · intro hnone
    have hnone' : specOwnerUsernames policies p0.project_id = [] := hnone
    have hdict : dictGetD (fetch_project_owners policies) p0.project_id = [] := by
      rw [fetch_project_owners_spec, hnone']
      rfl
    have hcell :
        displayCell
          (augmentProject (fetch_project_owners policies)
            (fetch_inactive_project_numbers recs) p0) "owners"
          = ownersCell (dictGetD (fetch_project_owners policies) p0.project_id) := rfl
    rw [hcell, hdict]
    rfl

theorem c3_owners_join_witness :
    qDemo ∈ mainRecords psDemo polDemo [] ∧
    ("jane.doe" ∈ qDemo.owners ↔ "jane.doe" ∈ specOwnerUsernames polDemo qDemo.project_id) ∧
    qDemo.owners.Nodup := by
  have h := c3_owners_join psDemo polDemo [] qDemo (by decide)
  exact ⟨by decide, h.1 "jane.doe", h.2.1⟩

/-! ### Claim C4 -/

/-- Claim C4: after the join, a record's inactive flag is set exactly when its
project_number is the segment the code extracts after the `/projects/` segment
of some operation's resource path in the recommender output; operations whose
resource path contains no `/projects/` substring contribute nothing. -/
theorem c4_inactive_flag :
    ∀ (ps : List ProjectInfo) (policies : List IamPolicyResult)
      (recs : List Recommendation) (q : Project), q ∈ mainRecords ps policies recs →
      (q.inactive = true ↔
        ∃ rec ∈ recs, ∃ g ∈ rec.content.operation_groups, ∃ op ∈ g.operations,
          pyContains op.resource "/projects/" = true ∧
          resourceProjectKey op.resource = q.project_number) := by
  intro ps policies recs q hq
  have hq' : q ∈ joinRecords ps policies recs :=
    ((List.perm_insertionSort keyLe _).mem_iff).mp hq
  obtain ⟨p0, _, rfl⟩ := List.mem_map.mp hq'
  show decide (p0.project_number ∈ fetch_inactive_project_numbers recs) = true ↔ _
  rw [decide_eq_true_eq]
  exact mem_fetch_inactive recs p0.project_number

theorem c4_inactive_flag_witness :
    qNum ∈ mainRecords psNum [] recsDemo ∧
    (qNum.inactive = true ↔
      ∃ rec ∈ recsDemo, ∃ g ∈ rec.content.operation_groups, ∃ op ∈ g.operations,
        pyContains op.resource "/projects/" = true ∧
        resourceProjectKey op.resource = qNum.project_number) :=
  ⟨by decide, c4_inactive_flag psNum [] recsDemo qNum (by decide)⟩

/-! ### Claim C5 -/

/-- Claim C5: only bindings whose role is exactly `roles/owner` contribute (a
single-binding policy with any other role leaves the accumulator unchanged),
and only `user:`-members contribute: `user:jane.doe@example.com` yields the
username `jane.doe` while a `serviceAccount:` member on the same binding
contributes nothing. -/
theorem c5_owner_binding_filter :
    (∀ (resource : String) (b : Binding) (acc : OwnersDict),
        b.role ≠ "roles/owner" → policyStep acc ⟨resource, ⟨[b]⟩⟩ = acc) ∧
    bindingUsernames
        ⟨"roles/owner", ["user:jane.doe@example.com",
                         "serviceAccount:x@proj.iam.gserviceaccount.com"]⟩ =
      ["jane.doe"] ∧
    fetch_project_owners polDemo = [("demo", ["jane.doe"])] := by
  refine ⟨?_, by decide, by decide⟩
  intro resource b acc hb
  simp [policyStep, hb]

theorem c5_owner_binding_filter_witness :
    (Binding.role ⟨"roles/editor", ["user:alice@example.com"]⟩ ≠ "roles/owner") ∧
    policyStep [] ⟨"//x/projects/p", ⟨[⟨"roles/editor", ["user:alice@example.com"]⟩]⟩⟩ = [] :=
  ⟨by decide,
    c5_owner_binding_filter.1 "//x/projects/p" ⟨"roles/editor", ["user:alice@example.com"]⟩ []
      (by decide)⟩

/-! ### Claim C9 -/

/-- Claim C9: every record that reaches the sort and the render steps is fully
populated — its owners come from the ownership mapping at its own project_id
and its inactive flag from membership of its own project_number in the inactive
set — and the sort only rearranges the augmented records (its output is a
permutation of the augmentation pass's output, each record unchanged). -/
theorem c9_population_invariant :
    ∀ (ps : List ProjectInfo) (policies : List IamPolicyResult)
      (recs : List Recommendation),
      (mainRecords ps policies recs).Perm (joinRecords ps policies recs) ∧
      ∀ q ∈ mainRecords ps policies recs,
        q.owners = dictGetD (fetch_project_owners policies) q.project_id ∧
        (q.inactive = true ↔ q.project_number ∈ fetch_inactive_project_numbers recs) := by
  intro ps policies recs
  refine ⟨List.perm_insertionSort keyLe _, ?_⟩
  intro q hq
  have hq' : q ∈ joinRecords ps policies recs :=
    ((List.perm_insertionSort keyLe _).mem_iff).mp hq
  obtain ⟨p0, _, rfl⟩ := List.mem_map.mp hq'
  refine ⟨rfl, ?_⟩
  rw [show (augmentProject (fetch_project_owners policies)
    (fetch_inactive_project_numbers recs) p0).inactive
      = decide (p0.project_number ∈ fetch_inactive_project_numbers recs) from rfl,
    decide_eq_true_eq]
  exact Iff.rfl

theorem c9_population_invariant_witness :
    (mainRecords psNum [] recsDemo).Perm (joinRecords psNum [] recsDemo) ∧
    qNum ∈ mainRecords psNum [] recsDemo ∧
    qNum.owners = dictGetD (fetch_project_owners []) qNum.project_id ∧
    (qNum.inactive = true ↔ qNum.project_number ∈ fetch_inactive_project_numbers recsDemo) := by
  have h := c9_population_invariant psNum [] recsDemo
  have hm : qNum ∈ mainRecords psNum [] recsDemo := by decide
  exact ⟨h.1, hm, (h.2 qNum hm).1, (h.2 qNum hm).2⟩

/-! ### Splitting when the separator does not occur -/

theorem pySplitAux_of_not_sub (s0 : Char) (sep : List Char) :
    ∀ (fuel : Nat) (l acc : List Char), subOf (s0 :: sep) l = false →
      pySplitAux s0 sep fuel l acc = [acc.reverse ++ l] := by
  intro fuel
  induction fuel with
  | zero =>
    intro l acc _
    cases l with
    | nil => simp [pySplitAux]
    | cons c rest => rfl
  | succ fuel ih =>
    intro l acc h
    cases l with
    | nil => simp [pySplitAux]
    | cons c rest =>
      simp only [subOf, Bool.or_eq_false_iff] at h
      obtain ⟨h1, h2⟩ := h
      simp only [pySplitAux, h1, Bool.false_eq_true, if_false]
      rw [ih rest (c :: acc) h2]
      simp

theorem pySplit_projects_eq (s : String) (h : pyContains s "/projects/" = false) :
    pySplit s "/projects/" = [s] := by
  have he : pySplit s "/projects/"
      = (pySplitAux '/' "projects/".data s.data.length s.data []).map
          (fun l => String.mk l) := rfl
  have hsub : subOf ('/' :: "projects/".data) s.data = false := by
    have hd : ('/' :: "projects/".data) = "/projects/".data := by decide
    rw [hd]
    exact h
  rw [he, pySplitAux_of_not_sub '/' "projects/".data s.data.length s.data [] hsub]
  simp only [List.reverse_nil, List.nil_append, List.map_cons, List.map_nil]

theorem pySplit_slash_eq (s : String) (h : subOf ['/'] s.data = false) :
    pySplit s "/" = [s] := by
  have he : pySplit s "/"
      = (pySplitAux '/' "".data s.data.length s.data []).map (fun l => String.mk l) := rfl
  have hsub : subOf ('/' :: "".data) s.data = false := by
    have hd : ('/' :: "".data) = ['/'] := by decide
    rw [hd]
    exact h
  rw [he, pySplitAux_of_not_sub '/' "".data s.data.length s.data [] hsub]
  simp only [List.reverse_nil, List.nil_append, List.map_cons, List.map_nil]

theorem subOf_single_of_not_mem {c : Char} :
    ∀ l : List Char, c ∉ l → subOf [c] l = false := by
  intro l
  induction l with
  | nil => intro _; rfl
  | cons x rest ih =>
    intro h
    have hcx : (c == x) = false := by
      simp only [beq_eq_false_iff_ne, ne_eq]
      intro he
      exact h (by simp [he])
    have hrest : subOf [c] rest = false := ih (fun hm => h (List.mem_cons_of_mem _ hm))
    simp [subOf, List.isPrefixOf, hcx, hrest]

/-! ### Claim C10 -/

/-- Claim C10: unlike the inactivity fetcher (which skips operations whose
resource lacks a `/projects/` segment), the ownership fetcher does not skip a
policy whose resource contains no `/projects/` substring: the key it
accumulates under is the portion of the resource path before the first `/`
(the whole path when there is no `/` at all). -/
theorem c10_no_projects_resource :
    ∀ resource : String, pyContains resource "/projects/" = false →
      resourceProjectKey resource = (pySplit resource "/").headD "" ∧
      ('/' ∉ resource.data → resourceProjectKey resource = resource) ∧
      fetch_project_owners
          [⟨resource, ⟨[⟨"roles/owner", ["user:alice@example.com"]⟩]⟩⟩] =
        [((pySplit resource "/").headD "", ["alice"])] ∧
      fetch_inactive_project_numbers [⟨⟨[⟨[⟨resource⟩]⟩]⟩⟩] = ∅ := by
  intro resource h
  have hkey : resourceProjectKey resource = (pySplit resource "/").headD "" := by
    unfold resourceProjectKey
    rw [pySplit_projects_eq resource h]
    rfl
  refine ⟨hkey, ?_, ?_, ?_⟩
  · intro hs
    rw [hkey, pySplit_slash_eq resource (subOf_single_of_not_mem resource.data hs)]
    rfl
  · unfold fetch_project_owners
    rw [show ([⟨resource, ⟨[⟨"roles/owner", ["user:alice@example.com"]⟩]⟩⟩] :
          List IamPolicyResult).foldl policyStep []
        = dictExtend (resourceProjectKey resource)
            (bindingUsernames ⟨"roles/owner", ["user:alice@example.com"]⟩) [] from rfl]
    rw [show bindingUsernames ⟨"roles/owner", ["user:alice@example.com"]⟩ = ["alice"] by decide]
    rw [hkey]
    rfl
  · unfold fetch_inactive_project_numbers
    simp [List.filter_cons, h]

theorem c10_no_projects_resource_witness :
    pyContains "organizations/123/policy" "/projects/" = false ∧
    resourceProjectKey "organizations/123/policy"
      = (pySplit "organizations/123/policy" "/").headD "" ∧
    fetch_project_owners
        [⟨"organizations/123/policy", ⟨[⟨"roles/owner", ["user:alice@example.com"]⟩]⟩⟩] =
      [((pySplit "organizations/123/policy" "/").headD "", ["alice"])] ∧
    fetch_inactive_project_numbers [⟨⟨[⟨[⟨"organizations/123/policy"⟩]⟩]⟩⟩] = ∅ := by
  have h := c10_no_projects_resource "organizations/123/policy" (by decide)
  exact ⟨by decide, h.1, h.2.2.1, h.2.2.2⟩

/-! ### Output determinism: the rendered text only depends on the owners as a
multiset, because the owners cell is sorted before joining -/

/-- Two records that agree on every field, with the owners lists allowed to be
any permutations of each other (the order `list(set(...))` produces is
unspecified). -/
def SameUpToOwners (p q : Project) : Prop :=
  p.project_id = q.project_id ∧ p.project_number = q.project_number ∧
  p.display_name = q.display_name ∧ p.create_date = q.create_date ∧
  p.inactive = q.inactive ∧ p.owners.Perm q.owners

theorem ownersCell_perm {l l' : List String} (h : l.Perm l') :
    ownersCell l = ownersCell l' := by
  unfold ownersCell
  by_cases he : l = []
  · subst he
    rw [← h.nil_eq]
  · have he' : l' ≠ [] := fun hh => he (by rw [hh] at h; exact h.eq_nil)
    rw [if_neg he, if_neg he']
    have hsorted : pySortedStrings l = pySortedStrings l' := by
      apply List.eq_of_perm_of_sorted (r := strLe)
      · exact (List.perm_insertionSort strLe l).trans
          (h.trans (List.perm_insertionSort strLe l').symm)
      · exact List.sorted_insertionSort strLe l
      · exact List.sorted_insertionSort strLe l'
    rw [hsorted]

theorem displayCell_congr {p q : Project} (h : SameUpToOwners p q) (col : String) :
    displayCell p col = displayCell q col := by
  obtain ⟨h1, _, h3, h4, h5, h6⟩ := h
  unfold displayCell
  rw [h1, h3, h4, h5, ownersCell_perm h6]

theorem sortKey_congr {p q : Project} (h : SameUpToOwners p q) : sortKey p = sortKey q := by
  obtain ⟨_, _, _, h4, h5, _⟩ := h
  unfold sortKey
  rw [h4, h5]

theorem keyLe_congr {a a' b b' : Project} (ha : SameUpToOwners a a')
    (hb : SameUpToOwners b b') : keyLe a b ↔ keyLe a' b' := by
  unfold keyLe
  rw [sortKey_congr ha, sortKey_congr hb]

theorem orderedInsert_forall₂ {a a' : Project} (ha : SameUpToOwners a a') :
    ∀ {l l' : List Project}, List.Forall₂ SameUpToOwners l l' →
      List.Forall₂ SameUpToOwners (List.orderedInsert keyLe a l)
        (List.orderedInsert keyLe a' l') := by
  intro l l' h
  induction h with
  | nil => exact List.Forall₂.cons ha List.Forall₂.nil
  | @cons b b' t t' hb ht ih =>
    simp only [List.orderedInsert]
    by_cases hle : keyLe a b
    · rw [if_pos hle, if_pos ((keyLe_congr ha hb).mp hle)]
      exact List.Forall₂.cons ha (List.Forall₂.cons hb ht)
    · rw [if_neg hle, if_neg (fun hc => hle ((keyLe_congr ha hb).mpr hc))]
      exact List.Forall₂.cons hb ih

theorem sortProjects_forall₂ :
    ∀ {l l' : List Project}, List.Forall₂ SameUpToOwners l l' →
      List.Forall₂ SameUpToOwners (sortProjects l) (sortProjects l') := by
  intro l l' h
  induction h with
  | nil => exact List.Forall₂.nil
  | cons ha _ ih => exact orderedInsert_forall₂ ha ih

/-- Mapping two pointwise-related lists with functions that agree on related
elements gives equal lists. -/
theorem map_eq_of_forall₂ {α β γ : Type} {R : α → β → Prop} {f : α → γ} {g : β → γ} :
    ∀ {l : List α} {l' : List β}, List.Forall₂ R l l' →
      (∀ a b, R a b → f a = g b) → l.map f = l'.map g := by
  intro l l' h hfg
  induction h with
  | nil => rfl
  | cons hab _ ih => simp only [List.map_cons, hfg _ _ hab, ih]

/-- Mapping one list with two functions that agree on its elements. -/
theorem map_congr_on {α γ : Type} {f g : α → γ} :
    ∀ l : List α, (∀ a ∈ l, f a = g a) → l.map f = l.map g := by
  intro l h
  induction l with
  | nil => rfl
  | cons x xs ih =>
    simp only [List.map_cons, h x (List.mem_cons_self x xs)]
    rw [ih (fun a ha => h a (List.mem_cons_of_mem x ha))]

theorem print_report_congr {l l' : List Project}
    (h : List.Forall₂ SameUpToOwners l l') (b : Bool) :
    print_report l b = print_report l' b := by
  have hlen : l.length = l'.length := h.length_eq
  have hempty : l.isEmpty = l'.isEmpty := by
    cases l <;> cases l' <;> simp_all
  have hwidth : ∀ col, colWidth l col = colWidth l' col := by
    intro col
    unfold colWidth
    rw [map_eq_of_forall₂ h (fun a c hac => by rw [displayCell_congr hac])]
  have hhdr : headerRow l b = headerRow l' b := by
    unfold headerRow
    rw [map_congr_on (headersFor b) (fun c _ => by rw [hwidth c])]
  have hrows : l.map (rowLine l b) = l'.map (rowLine l' b) := by
    apply map_eq_of_forall₂ h
    intro p q hpq
    unfold rowLine
    rw [map_congr_on (headersFor b)
      (fun c _ => by rw [displayCell_congr hpq c, hwidth c])]
  unfold print_report
  rw [hempty, hhdr, hrows]

/-! ### Claim C7 -/

/-- Claim C7: the printed report is a deterministic function of the fetch
results; in particular the comma-joined owners cell does not depend on the
accumulation order of the usernames, because they are sorted before rendering —
two runs whose records agree except for permuted owners lists print
byte-identical output (identical fetch results are the special case of equal
owners lists). -/
theorem c7_output_deterministic :
    ∀ (l l' : List Project) (b : Bool), List.Forall₂ SameUpToOwners l l' →
      print_report (sortProjects l) b = print_report (sortProjects l') b := by
  intro l l' b h
  exact print_report_congr (sortProjects_forall₂ h) b

def permDemoA : List Project :=
  [{ project_id := "p", project_number := "9", display_name := "X",
     create_date := "2020-01-01", owners := ["bob", "alice"], inactive := false }]

def permDemoB : List Project :=
  [{ project_id := "p", project_number := "9", display_name := "X",
     create_date := "2020-01-01", owners := ["alice", "bob"], inactive := false }]

theorem c7_output_deterministic_witness :
    print_report (sortProjects permDemoA) true = print_report (sortProjects permDemoB) true :=
  c7_output_deterministic permDemoA permDemoB true
    (List.Forall₂.cons ⟨rfl, rfl, rfl, rfl, rfl, by decide⟩ List.Forall₂.nil)

/-! ### Width arithmetic for the renderer -/

theorem foldlMax_init_le : ∀ (xs : List Nat) (x : Nat), x ≤ xs.foldl max x := by
  intro xs
  induction xs with
  | nil => intro x; exact le_refl x
  | cons y ys ih => intro x; exact le_trans (le_max_left x y) (ih (max x y))

theorem foldlMax_mem_le : ∀ (xs : List Nat) (x a : Nat), a ∈ xs → a ≤ xs.foldl max x := by
  intro xs
  induction xs with
  | nil => intro x a h; simp at h
  | cons y ys ih =>
    intro x a h
    rcases List.mem_cons.mp h with rfl | h'
    · exact le_trans (le_max_right x a) (foldlMax_init_le ys (max x a))
    · exact ih (max x y) a h'

theorem foldlMax_mem : ∀ (xs : List Nat) (x : Nat), xs.foldl max x ∈ x :: xs := by
  intro xs
  induction xs with
  | nil => intro x; simp
  | cons y ys ih =>
    intro x
    rcases List.mem_cons.mp (ih (max x y)) with heq | hmem
    · rcases max_choice x y with hx | hy
      · rw [List.foldl_cons, heq, hx]
        exact List.mem_cons_self _ _
      · rw [List.foldl_cons, heq, hy]
        exact List.mem_cons_of_mem _ (List.mem_cons_self _ _)
    · rw [List.foldl_cons]
      exact List.mem_cons_of_mem _ (List.mem_cons_of_mem _ hmem)

theorem colWidth_ge_header (ps : List Project) (col : String) :
    col.length ≤ colWidth ps col :=
  le_max_left _ _

theorem colWidth_ge_cell {ps : List Project} {p : Project} (hp : p ∈ ps) (col : String) :
    (displayCell p col).length ≤ colWidth ps col := by
  unfold colWidth
  cases ps with
  | nil => simp at hp
  | cons q qs =>
    refine le_trans ?_ (le_max_right _ _)
    simp only [List.map_cons, pyMax, Option.getD_some]
    rcases List.mem_cons.mp hp with rfl | hmem
    · exact foldlMax_init_le _ _
    · exact foldlMax_mem_le _ _ _ (List.mem_map_of_mem _ hmem)

theorem colWidth_attained {ps : List Project} (hne : ps ≠ []) (col : String) :
    colWidth ps col ∈ col.length :: ps.map (fun p => (displayCell p col).length) := by
  unfold colWidth
  cases ps with
  | nil => exact absurd rfl hne
  | cons q qs =>
    simp only [List.map_cons, pyMax, Option.getD_some]
    rcases max_choice col.length
        ((qs.map fun p => (displayCell p col).length).foldl max
          (displayCell q col).length) with h | h
    · rw [h]
      exact List.mem_cons_self _ _
    · rw [h]
      exact List.mem_cons_of_mem _
        (foldlMax_mem (qs.map fun p => (displayCell p col).length)
          (displayCell q col).length)

theorem pyLjust_length (s : String) (w : Nat) : (pyLjust s w).length = max s.length w := by
  unfold pyLjust
  rw [String.length_append]
  have hmk : (String.mk (List.replicate (w - s.length) ' ')).length = w - s.length := by
    show (List.replicate (w - s.length) ' ').length = w - s.length
    exact List.length_replicate _ _
  rw [hmk]
  omega

theorem pyLjust_length_of_le {s : String} {w : Nat} (h : s.length ≤ w) :
    (pyLjust s w).length = w := by
  rw [pyLjust_length]
  omega

theorem pyJoin_length_cons (sep : String) : ∀ (x : String) (xs : List String),
    (pyJoin sep (x :: xs)).length = x.length + (xs.map fun s => sep.length + s.length).sum := by
  intro x xs
  induction xs generalizing x with
  | nil => simp [pyJoin]
  | cons y ys ih =>
    rw [show pyJoin sep (x :: y :: ys) = x ++ sep ++ pyJoin sep (y :: ys) from rfl,
        String.length_append, String.length_append, ih y]
    simp only [List.map_cons, List.sum_cons]
    omega

theorem sum_map_const_add (c : Nat) : ∀ l : List String,
    (l.map fun s => c + s.length).sum = c * l.length + (l.map String.length).sum := by
  intro l
  induction l with
  | nil => simp
  | cons x xs ih =>
    simp only [List.map_cons, List.sum_cons, List.length_cons, ih]
    ring

theorem pyJoin_length (sep : String) (x : String) (xs : List String) :
    (pyJoin sep (x :: xs)).length
      = ((x :: xs).map String.length).sum + sep.length * ((x :: xs).length - 1) := by
  rw [pyJoin_length_cons, sum_map_const_add]
  simp only [List.map_cons, List.sum_cons, List.length_cons, Nat.add_sub_cancel]
  ring

/-- Appending a final element to a joined nonempty list. -/
theorem pyJoin_append_single (sep y : String) :
    ∀ xs : List String, xs ≠ [] → pyJoin sep (xs ++ [y]) = pyJoin sep xs ++ sep ++ y := by
  intro xs
  induction xs with
  | nil => intro h; exact absurd rfl h
  | cons x rest ih =>
    intro _
    cases rest with
    | nil => rfl
    | cons z zs =>
      rw [List.cons_append,
        show pyJoin sep (x :: (z :: zs ++ [y])) = x ++ sep ++ pyJoin sep (z :: zs ++ [y])
          from rfl,
        ih (by simp),
        show pyJoin sep (x :: z :: zs) = x ++ sep ++ pyJoin sep (z :: zs) from rfl]
      apply String.ext
      simp [String.data_append, List.append_assoc]

/-- Spec-side: the total printed width of a line — the per-column maxima plus
two separator characters between each adjacent pair of columns. -/
def totalWidth (projects : List Project) (show_inactive : Bool) : Nat :=
  (((headersFor show_inactive).map fun c => colWidth projects c).sum)
    + 2 * ((headersFor show_inactive).length - 1)

theorem headersFor_ne_nil (b : Bool) : headersFor b ≠ [] := by
  cases b <;> simp [headersFor]

theorem pyJoin_length_ne (sep : String) (l : List String) (hne : l ≠ []) :
    (pyJoin sep l).length = (l.map String.length).sum + sep.length * (l.length - 1) := by
  cases l with
  | nil => exact absurd rfl hne
  | cons x xs => exact pyJoin_length sep x xs

theorem headerRow_length (ps : List Project) (b : Bool) :
    (headerRow ps b).length = totalWidth ps b := by
  unfold headerRow totalWidth
  rw [pyJoin_length_ne "  " _
    (fun hh => headersFor_ne_nil b (List.map_eq_nil_iff.mp hh))]
  simp only [List.map_map, Function.comp, List.length_map]
  have hmap2 : (headersFor b).map (String.length ∘ fun h => pyLjust h (colWidth ps h))
      = (headersFor b).map (fun h => colWidth ps h) :=
    map_congr_on _ (fun h _ => pyLjust_length_of_le (colWidth_ge_header ps h))
  rw [hmap2, show ("  " : String).length = 2 from rfl]

theorem rowLine_length {ps : List Project} {p : Project} (hp : p ∈ ps) (b : Bool) :
    (rowLine ps b p).length = totalWidth ps b := by
  unfold rowLine totalWidth
  rw [pyJoin_length_ne "  " _
    (fun hh => headersFor_ne_nil b (List.map_eq_nil_iff.mp hh))]
  simp only [List.map_map, Function.comp, List.length_map]
  have hmap2 : (headersFor b).map (String.length ∘ fun h => pyLjust (displayCell p h) (colWidth ps h))
      = (headersFor b).map (fun h => colWidth ps h) :=
    map_congr_on _ (fun h _ => pyLjust_length_of_le (colWidth_ge_cell hp h))
  rw [hmap2, show ("  " : String).length = 2 from rfl]

theorem headersFor_true_eq : headersFor true = headersFor false ++ ["inactive"] := by
  decide

theorem headerRow_true_eq (ps : List Project) :
    headerRow ps true
      = headerRow ps false ++ "  " ++ pyLjust "inactive" (colWidth ps "inactive") := by
  unfold headerRow
  rw [headersFor_true_eq, List.map_append]
  simp only [List.map_cons, List.map_nil]
  rw [pyJoin_append_single "  " _ _
    (fun hh => headersFor_ne_nil false (List.map_eq_nil_iff.mp hh))]

theorem rowLine_true_eq (ps : List Project) (p : Project) :
    rowLine ps true p
      = rowLine ps false p ++ "  "
          ++ pyLjust (pyStrBool p.inactive) (colWidth ps "inactive") := by
  unfold rowLine
  rw [headersFor_true_eq, List.map_append]
  simp only [List.map_cons, List.map_nil]
  rw [pyJoin_append_single "  " _ _
    (fun hh => headersFor_ne_nil false (List.map_eq_nil_iff.mp hh))]
  rw [show displayCell p "inactive" = pyStrBool p.inactive from rfl]

/-! ### Claim C6 -/

/-- Claim C6: for a non-empty record list, every column's printed width is the
maximum length among its header label and its cell values (an upper bound that
is attained); every printed line — header and one row per record, in record
order, cells left-justified and joined by two spaces — has exactly the total
width these maxima determine; and omitting the flag removes exactly the
trailing inactive column and its two-space separator from the header and from
every row, leaving the other columns' widths (the shared prefix is
byte-identical) and the row order unchanged. -/
theorem c6_render_widths :
    ∀ (ps : List Project) (b : Bool), ps ≠ [] →
      (∀ col ∈ headersFor b,
        (∀ n ∈ col.length :: ps.map (fun p => (displayCell p col).length),
            n ≤ colWidth ps col) ∧
        colWidth ps col ∈ col.length :: ps.map (fun p => (displayCell p col).length)) ∧
      (print_report ps b
          = some (headerRow ps b
              :: String.mk (List.replicate (headerRow ps b).length '-')
              :: ps.map (rowLine ps b)) ∧
        (headerRow ps b).length = totalWidth ps b ∧
        ∀ p ∈ ps, (rowLine ps b p).length = totalWidth ps b) ∧
      (headerRow ps true
          = headerRow ps false ++ "  " ++ pyLjust "inactive" (colWidth ps "inactive")) ∧
      ∀ p : Project, rowLine ps true p
        = rowLine ps false p ++ "  "
            ++ pyLjust (pyStrBool p.inactive) (colWidth ps "inactive") := by
  intro ps b hne
  refine ⟨?_, ⟨?_, headerRow_length ps b, fun p hp => rowLine_length hp b⟩,
    headerRow_true_eq ps, rowLine_true_eq ps⟩
  · intro col _
    constructor
    · intro n hn
      rcases List.mem_cons.mp hn with rfl | hmem
      · exact colWidth_ge_header ps col
      · obtain ⟨p, hp, rfl⟩ := List.mem_map.mp hmem
        exact colWidth_ge_cell hp col
    · exact colWidth_attained hne col
  · unfold print_report
    rw [if_neg (fun hh => hne (List.isEmpty_iff.mp hh))]

theorem c6_render_widths_witness :
    ([P3demo, P1demo, P2demo] : List Project) ≠ [] ∧
    colWidth [P3demo, P1demo, P2demo] "display_name"
      ∈ ("display_name".length
          :: [P3demo, P1demo, P2demo].map (fun p => (displayCell p "display_name").length)) ∧
    (headerRow [P3demo, P1demo, P2demo] true).length = totalWidth [P3demo, P1demo, P2demo] true ∧
    rowLine [P3demo, P1demo, P2demo] true P2demo
      = rowLine [P3demo, P1demo, P2demo] false P2demo ++ "  "
          ++ pyLjust (pyStrBool P2demo.inactive) (colWidth [P3demo, P1demo, P2demo] "inactive") := by
  have h := c6_render_widths [P3demo, P1demo, P2demo] true (by decide)
  exact ⟨by decide, (h.1 "display_name" (by decide)).2, h.2.1.2.1, h.2.2.2 P2demo⟩

end GcpCleanup
